import Mathlib

/-!
Verification of the orchestration core of the voice survival assistant
(`src/app.py`) against its natural-language specification.

The embedding is shallow: each Python function relevant to the claims is
translated into an executable Lean definition; Python strings become
`String`/`List Char`, wall-clock seconds become natural-number
milliseconds, fallible calls return `Option`, and the two genuinely
concurrent scenarios (the `is_listening`/`is_processing` flags, and the
TTS worker shutdown) are modelled as explicit small-step state machines
driven by an interleaving schedule.
-/

namespace App

/-! ## Python string primitives

`pyStrip` models `str.strip()` (remove leading and trailing whitespace),
`pyLower` models `str.lower()` (per-character lowering; the texts involved
are ASCII), and `pyReplace` models `str.replace(old, new)`: every
non-overlapping occurrence of `old`, scanned left to right, is replaced by
`new` in a single pass. -/

def isPySpace (c : Char) : Bool :=
  c = ' ' || c = '\t' || c = '\n' || c = '\r' || c = '\x0b' || c = '\x0c'

def pyStripL (l : List Char) : List Char :=
  List.reverse (List.dropWhile isPySpace (List.reverse (List.dropWhile isPySpace l)))

def pyStrip (s : String) : String :=
  ⟨pyStripL s.data⟩

def pyLower (s : String) : String :=
  ⟨s.data.map Char.toLower⟩

/-- `leadsWith pat l` : `pat` is an initial segment of `l`. -/
def leadsWith : List Char → List Char → Bool
  | [], _ => true
  | _ :: _, [] => false
  | c :: cs, d :: ds => c = d && leadsWith cs ds

/-- `containsSub pat l` : `pat` occurs as a contiguous sublist of `l`
(Python `pat in l`). -/
def containsSub (pat : List Char) : List Char → Bool
  | [] => pat.isEmpty
  | c :: rest => leadsWith pat (c :: rest) || containsSub pat rest

/-- `strHas hay needle` models Python `needle in hay`. -/
def strHas (hay needle : String) : Bool :=
  containsSub needle.data hay.data

/-- One pass of Python `str.replace`, with explicit fuel (the fuel is
always instantiated with the length of the scanned list, which bounds the
number of scanning steps, so the `0, s` fallback is unreachable). -/
def replaceFuel (pat rep : List Char) : Nat → List Char → List Char
  | _, [] => []
  | 0, s => s
  | fuel + 1, c :: rest =>
    if pat ≠ [] && leadsWith pat (c :: rest) then
      rep ++ replaceFuel pat rep fuel (List.drop (pat.length - 1) rest)
    else
      c :: replaceFuel pat rep fuel rest

def pyReplace (s pat rep : String) : String :=
  ⟨replaceFuel pat.data rep.data s.data.length s.data⟩

/-! ## Endpointed listener — `AudioManager.listen` (app.py:198-238)

Each loop iteration reads one audio frame and obtains one recognizer
outcome: a final result, an interim ("partial") result, or a read error.
Time is in milliseconds; every `time.time()` call inside one iteration is
abstracted to the frame's single timestamp `t` (elapsed since the call
started).  The loop guard `time.time() - start_time < timeout`
(app.py:209) stops processing at the first frame whose timestamp reaches
the timeout.  The second component of the returned pair records whether
the call returned early from inside the loop (`true`) or fell through to
the timeout return at app.py:238 (`false`). -/

inductive FrameRes where
  | finalRes (text : String)
  | interim (text : String)
  | readErr
deriving DecidableEq

structure Frame where
  t : Nat
  res : FrameRes
deriving DecidableEq

def minSpeechMs : Nat := 500

def silenceMs : Nat := 2000

def listenLoop (timeout : Nat) :
    List Frame → String → String → Option Nat → (Option String × Bool)
  | [], resultText, _, _ =>
    -- app.py:238 `return result_text.lower() if result_text else None`
    (if resultText ≠ "" then some (pyLower resultText) else none, false)
  | f :: rest, resultText, lastText, silenceStart =>
    if f.t < timeout then
      match f.res with
      | FrameRes.readErr =>
        -- app.py:234-236: log and continue
        listenLoop timeout rest resultText lastText silenceStart
      | FrameRes.finalRes txt =>
        -- app.py:213-217
        let rt := pyStrip txt
        if rt ≠ "" ∧ f.t > minSpeechMs then (some (pyLower rt), true)
        else listenLoop timeout rest rt lastText silenceStart
      | FrameRes.interim cur =>
        -- app.py:219-233
        if cur ≠ lastText then
          if cur ≠ "" then
            -- app.py:226-227 `silence_start = None`; the silence check at
            -- app.py:231 then cannot fire this iteration
            listenLoop timeout rest resultText cur none
          else
            -- app.py:223 has already overwritten `last_partial` with the
            -- empty `current_partial`, so the guard at app.py:228
            -- (`silence_start is None and last_partial`) tests `cur`
            let ss2 := if silenceStart = none ∧ cur ≠ "" then some f.t else silenceStart
            match ss2 with
            | some s0 =>
              -- app.py:231-233, with `last_partial = cur`
              if f.t - s0 > silenceMs ∧ cur ≠ "" then (some (pyLower cur), true)
              else listenLoop timeout rest resultText cur ss2
            | none => listenLoop timeout rest resultText cur ss2
        else
          -- unchanged partial: only the silence check at app.py:231-233 runs
          match silenceStart with
          | some s0 =>
            if f.t - s0 > silenceMs ∧ lastText ≠ "" then (some (pyLower lastText), true)
            else listenLoop timeout rest resultText lastText silenceStart
          | none => listenLoop timeout rest resultText lastText silenceStart
    else
      -- loop guard fails: app.py:238
      (if resultText ≠ "" then some (pyLower resultText) else none, false)

/-- `AudioManager.listen`, also reporting whether it returned early. -/
def listenE (timeout : Nat) (frames : List Frame) : Option String × Bool :=
  listenLoop timeout frames "" "" none

def listen (timeout : Nat) (frames : List Frame) : Option String :=
  (listenE timeout frames).1

/-- The `result_text` accumulator as it stands when the loop reaches the
timeout: the stripped text of the last final recognizer result processed
before the timeout (finals overwrite it even when empty; interim results
and read errors leave it unchanged). -/
def lastFinalAux (timeout : Nat) : List Frame → String → String
  | [], acc => acc
  | f :: rest, acc =>
    if f.t < timeout then
      match f.res with
      | FrameRes.finalRes txt => lastFinalAux timeout rest (pyStrip txt)
      | _ => lastFinalAux timeout rest acc
    else acc

/-- `true` iff some frame processed before the timeout carried a non-empty
final (after stripping) or a non-empty interim transcription. -/
def capturedNonEmpty (timeout : Nat) (frames : List Frame) : Bool :=
  (frames.takeWhile (fun f => f.t < timeout)).any fun f =>
    match f.res with
    | FrameRes.finalRes txt => pyStrip txt ≠ ""
    | FrameRes.interim txt => txt ≠ ""
    | FrameRes.readErr => false

/-- C1 failing input: a non-empty partial at 100ms, the recognizer then
reports empty partials from 200ms on, i.e. more than 2 s of continuous
silence follow the partial, well before the 5 s timeout. -/
def c1frames : List Frame :=
  [⟨100, FrameRes.interim "hello"⟩, ⟨200, FrameRes.interim ""⟩,
   ⟨2300, FrameRes.interim ""⟩, ⟨2400, FrameRes.interim ""⟩,
   ⟨4900, FrameRes.interim ""⟩]

/-- C2 counterexample input: a single non-empty partial is captured and
then the timeout elapses. -/
def c2frames : List Frame :=
  [⟨100, FrameRes.interim "hello"⟩, ⟨300, FrameRes.interim ""⟩]

/-! ## Command routing — `EnhancedSurvivalAssistant._main_loop` (app.py:412-420)

The keyword sets are the literal lists in the source; a keyword matches by
substring containment (Python `in`).  `routeCommand` is the code's
`if`/`elif` dispatch chain, returning the action taken for a recognized
command (`none` when no branch matches: the command is silently ignored).
`classify` is the intent function stated by the spec (§4.2), written from
the spec's priority list; the claim theorem relates the two. -/

def emergencyWords : List String := ["emergency", "urgent", "help", "danger"]

def questionWords : List String := ["how", "what", "when", "where", "why"]

def exitWords : List String := ["exit", "quit", "stop", "shutdown"]

def hasAny (cmd : String) (ws : List String) : Bool :=
  ws.any fun w => strHas cmd w

inductive Intent where
  | WakeWord | Emergency | Question | Exit | Unclassified
deriving DecidableEq

inductive RouteAction where
  | wakeFlow
  | runCmd (cmd : String) (emergency : Bool)
  | shutdownLoop
deriving DecidableEq

/-- The dispatch chain of `_main_loop` (app.py:412-420). -/
def routeCommand (wakeWords : List String) (cmd : String) : Option RouteAction :=
  if hasAny cmd wakeWords then some RouteAction.wakeFlow
  else if hasAny cmd emergencyWords then some (RouteAction.runCmd cmd true)
  else if hasAny cmd questionWords then some (RouteAction.runCmd cmd false)
  else if hasAny cmd exitWords then some RouteAction.shutdownLoop
  else none

/-- Modelled from the spec's §4.2 contract `classify(utterance) -> Intent`,
first match wins, for comparison with `routeCommand`. -/
def classify (wakeWords : List String) (u : String) : Intent :=
  if hasAny u wakeWords then Intent.WakeWord
  else if hasAny u emergencyWords then Intent.Emergency
  else if hasAny u questionWords then Intent.Question
  else if hasAny u exitWords then Intent.Exit
  else Intent.Unclassified

/-! ## Completion client — `AIInterface.generate_response` (app.py:288-338)
and `AIInterface._clean_response` (app.py:340-345)

One `AttemptOutcome` describes what the `session.post` of one loop
iteration produces: an HTTP response with a status code and the JSON
body's `response` field, a `requests.exceptions.Timeout`, or some other
exception.  `generate_response` consumes an outcome per attempt (the
environment is a function from the attempt index) and reports the result
together with how many attempts were issued and how many `time.sleep(1)`
pauses were taken. -/

inductive AttemptOutcome where
  | http (status : Nat) (body : String)
  | timeoutExc
  | otherExc
deriving DecidableEq

structure GenResult where
  result : Option String
  attempts : Nat
  sleeps : Nat
deriving DecidableEq

/-- `AIInterface._clean_response` (app.py:340-345), line by line. -/
def clean_response (text : String) : String :=
  let t1 := pyReplace (pyReplace (pyReplace (pyReplace text "**" "") "*" "") "#" "") "```" ""
  let t2 := pyReplace (pyReplace t1 "\n\n" ". ") "\n" ". "
  let t3 := pyReplace (pyReplace t2 ".." ".") "  " " "
  pyStrip t3

/-- The retry loop of `generate_response` (app.py:316-338).  `remaining`
counts the iterations `range(max_retries)` still offers (the call starts
with `remaining = 3`), `made` the attempts already issued, `sleeps` the
1-second pauses already taken. -/
def genAux (oc : Nat → AttemptOutcome) : Nat → Nat → Nat → GenResult
  | 0, made, sleeps => ⟨none, made, sleeps⟩                       -- attempts exhausted: app.py:338
  | remaining + 1, made, sleeps =>
    match oc made with
    | AttemptOutcome.http status body =>
      if status = 200 then
        let result := pyStrip body                                 -- app.py:321
        if result ≠ "" then ⟨some (clean_response result), made + 1, sleeps⟩  -- app.py:322-323
        else genAux oc remaining (made + 1) sleeps                 -- app.py:324-325: log, next attempt
      else if status = 404 then ⟨none, made + 1, sleeps⟩           -- app.py:326-328: break
      else genAux oc remaining (made + 1) sleeps                   -- app.py:329-330: log, next attempt
    | AttemptOutcome.timeoutExc =>                                 -- app.py:331-334
      if remaining > 0 then genAux oc remaining (made + 1) (sleeps + 1)   -- attempt < max_retries - 1
      else genAux oc remaining (made + 1) sleeps
    | AttemptOutcome.otherExc => ⟨none, made + 1, sleeps⟩          -- app.py:335-337: break

def generate_response (oc : Nat → AttemptOutcome) : GenResult :=
  genAux oc 3 0 0

/-- C6 concrete input from the spec's testable property. -/
def c6input : String := "**Step 1**\n\n- Boil water\n- Filter it"

/-! ## Wake-word follow-up — `handle_wake_word_activation` (app.py:429-443)

The handler's externally visible behaviour is its sequence of calls:
speak, a listener invocation with the emergency timeout, the transcript
line for the user, and the `process_command` invocation.  `followUp` is
what the inner `listen` call returned; Python's `if follow_up:` treats
both `None` and the empty string as falsy. -/

inductive WakeEv where
  | speakEv (t : String)
  | listenCall (timeoutEmergency : Nat)
  | showUser (t : String)
  | processCmd (t : String) (emergency : Bool)
deriving DecidableEq

def ackMsg : String :=
  "I\x27m ready to help with your emergency. Please describe the situation."

def retryMsg : String :=
  "I didn\x27t catch that. Please try again or use the emergency voice button."

def handle_wake_word_activation (timeoutEmergency : Nat)
    (followUp : Option String) : List WakeEv :=
  [WakeEv.speakEv ackMsg, WakeEv.listenCall timeoutEmergency] ++
    match followUp with
    | some f =>
      if f ≠ "" then [WakeEv.showUser f, WakeEv.processCmd f true]  -- app.py:438-441
      else [WakeEv.speakEv retryMsg]                                -- app.py:442-443
    | none => [WakeEv.speakEv retryMsg]

/-! ## Configuration merge — `ConfigManager.validate_config` (app.py:87-100)

JSON documents are modelled by `JVal`; an object's fields are an
association list in insertion order (Python dicts preserve it, and a
JSON object's keys are unique).  `deep_update(base, update)` walks the
update's items in order: when the key exists in the base and both values
are objects it recurses, otherwise it sets the key (updating in place,
or appending a new key). -/

inductive JVal where
  | obj : List (String × JVal) → JVal
  | str : String → JVal
  | num : Int → JVal
  | bool : Bool → JVal
  | null

mutual

/-- `deep_update` merging the update value `u` into the base value `b`
(app.py:92-97): two objects merge field-wise, anything else is replaced
by the update value. -/
def mergeInto : JVal → JVal → JVal
  | JVal.obj bs, JVal.obj us => JVal.obj (mergeList bs us)
  | _, u => u
termination_by _ u => (sizeOf u, 1, 0)

/-- The `for key, value in update.items()` loop of `deep_update`. -/
def mergeList (bs : List (String × JVal)) : List (String × JVal) → List (String × JVal)
  | [] => bs
  | (k, v) :: us => mergeList (updOne k v bs) us
termination_by us => (sizeOf us, 0, 0)

/-- `base[key] = value` resp. the recursive call, on the association
list: the first entry with key `k` is updated in place (merging when both
values are objects), a missing key is appended. -/
def updOne (k : String) (v : JVal) : List (String × JVal) → List (String × JVal)
  | [] => [(k, v)]
  | (k2, v2) :: rest =>
    if k = k2 then (k2, mergeInto v2 v) :: rest
    else (k2, v2) :: updOne k v rest
termination_by rest => (sizeOf v, 2, sizeOf rest)

end

def isObj : JVal → Bool
  | JVal.obj _ => true
  | _ => false

/-- First-match association-list lookup (Python `base[key]`). -/
def jLookup : List (String × JVal) → String → Option JVal
  | [], _ => none
  | (k2, v) :: rest, k => if k = k2 then some v else jLookup rest k

/-- Concrete default/user documents for the C8 witness. -/
def dsW : List (String × JVal) :=
  [("model_name", JVal.str "default-model"),
   ("audio_settings", JVal.obj [("sample_rate", JVal.num 16000), ("chunk_size", JVal.num 8000)])]

def usW : List (String × JVal) :=
  [("audio_settings", JVal.obj [("sample_rate", JVal.num 8000)]),
   ("extra", JVal.bool true)]

end App

namespace Flags

/-! ## The `is_listening` / `is_processing` flags under interleaving

A small-step model of the two workers that write the shared, unguarded
flags of `EnhancedSurvivalAssistant`: the orchestration loop
(`_main_loop`, app.py:390-404) and one manual-trigger path
(`manual_voice_input` with its `capture_input` worker and the
`process_in_thread` worker it hands off to, app.py:445-504).  Each
program counter step is one Python statement; a schedule is the
interleaving order of the two workers.  The listen calls are abstracted
to single steps (the main loop's returning nothing, the manual capture
returning the command "help" — a final result the recognizer may deliver
at any point within the timeout). -/

inductive Tid where
  | mainT | manT
deriving DecidableEq

structure St where
  isProcessing : Bool
  isListening : Bool
  mainPc : Nat
  manPc : Nat
deriving DecidableEq

/-- One statement of `_main_loop` (app.py:390-404). -/
def stepMain (s : St) : St :=
  match s.mainPc with
  | 0 => if s.isProcessing then s else { s with mainPc := 1 }  -- app.py:391-393 back-pressure check
  | 1 => { s with isListening := true, mainPc := 2 }           -- app.py:396
  | 2 => { s with mainPc := 3 }                                -- app.py:399 listen (returns nothing)
  | 3 => { s with isListening := false, mainPc := 0 }          -- app.py:404, command empty, loop
  | _ => s

/-- One statement of the manual-trigger path (app.py:472-504 and the
`process_command` it invokes, app.py:445-470). -/
def stepMan (s : St) : St :=
  match s.manPc with
  | 0 =>                                                        -- app.py:474 acceptance check
    if s.isProcessing || s.isListening then { s with manPc := 9 }
    else { s with manPc := 1 }                                  -- app.py:503 spawns capture_input
  | 1 => { s with isListening := true, manPc := 2 }             -- app.py:480
  | 2 => { s with manPc := 3 }                                  -- app.py:488 listen returns "help"
  | 3 => { s with isListening := false, manPc := 4 }            -- app.py:493
  | 4 =>                                                        -- app.py:447-450 process_command
    if s.isProcessing then { s with manPc := 9 }
    else { s with isProcessing := true, manPc := 5 }
  | 5 => { s with manPc := 6 }                                  -- app.py:453-465 AI call and speech
  | 6 => { s with isProcessing := false, manPc := 9 }           -- app.py:467 finally
  | _ => s

def step (s : St) (t : Tid) : St :=
  match t with
  | Tid.mainT => stepMain s
  | Tid.manT => stepMan s

def run (s : St) (sched : List Tid) : St :=
  sched.foldl step s

def init : St := ⟨false, false, 0, 0⟩

/-- The interleaving that violates the mutual-exclusion claim: the main
loop passes its back-pressure check, is descheduled before setting
`is_listening`, the manual path is accepted and runs through to
`is_processing := true`, and then the main loop resumes. -/
def raceSched : List Tid :=
  [Tid.mainT, Tid.manT, Tid.manT, Tid.manT, Tid.manT, Tid.manT, Tid.mainT]

end Flags

namespace Tts

/-! ## Speech worker shutdown — `_tts_worker` (app.py:179-191) and
`AudioManager.shutdown` (app.py:251-257)

Two workers over the shared stop event and speech queue.  The worker's
`queue.get(timeout=1)` either pops the head or raises `queue.Empty`; the
synthesis call (`say` + `runAndWait`) may occupy the worker for any
number of steps (`sayFuel`).  `shutdown`'s `join(timeout=2)` is a bounded
wait: each join step either observes the worker finished, or consumes one
unit of `joinFuel`, and when the fuel is gone it proceeds regardless.
`wReason` records how the worker loop ended: 1 = the `while not
self._tts_stop_event.is_set()` guard failed, 2 = the `None` sentinel was
dequeued (`break`). -/

inductive Item where
  | sentinel
  | textItem (s : String)
deriving DecidableEq

inductive Tid where
  | worker | shut
deriving DecidableEq

structure St where
  stopEvent : Bool
  q : List Item
  wPc : Nat
  wReason : Nat
  sayFuel : Nat
  sPc : Nat
  joinFuel : Nat
deriving DecidableEq

/-- One step of `_tts_worker` (app.py:179-191).  `wPc` 0 is the loop
guard, 1 the `queue.get`, 2 the synthesis call; 9 means the worker
function returned. -/
def stepW (s : St) : St :=
  match s.wPc with
  | 0 =>
    if s.stopEvent then { s with wPc := 9, wReason := 1 }  -- app.py:181 guard fails
    else { s with wPc := 1 }
  | 1 =>
    match s.q with
    | [] => { s with wPc := 0 }                            -- app.py:188-189 queue.Empty: continue
    | Item.sentinel :: rest => { s with q := rest, wPc := 9, wReason := 2 }  -- app.py:184-185 break
    | Item.textItem _ :: rest => { s with q := rest, wPc := 2 }              -- app.py:186-187 say
  | 2 =>
    if s.sayFuel = 0 then { s with wPc := 0 }              -- synthesis finished, loop
    else { s with sayFuel := s.sayFuel - 1 }               -- synthesis still running
  | _ => s

/-- One step of `AudioManager.shutdown` (app.py:251-257).  `sPc` 0 sets
the stop event, 1 is the aliveness check plus the sentinel put, 2 the
bounded join; 3 means shutdown has returned (after `cleanup_audio`). -/
def stepS (s : St) : St :=
  match s.sPc with
  | 0 => { s with stopEvent := true, sPc := 1 }            -- app.py:253
  | 1 =>
    if s.wPc ≠ 9 then { s with q := s.q ++ [Item.sentinel], sPc := 2 }  -- app.py:254-255
    else { s with sPc := 3 }
  | 2 =>
    if s.wPc = 9 then { s with sPc := 3 }                  -- app.py:256 join: worker finished
    else if s.joinFuel = 0 then { s with sPc := 3 }        -- join timeout expired
    else { s with joinFuel := s.joinFuel - 1 }             -- still waiting, bounded
  | _ => s

def step (s : St) (t : Tid) : St :=
  match t with
  | Tid.worker => stepW s
  | Tid.shut => stepS s

def run (s : St) (sched : List Tid) : St :=
  sched.foldl step s

/-- Initial state: worker running at its loop guard, queue holding some
pending speech items, stop event clear, shutdown about to run, join
budget 2 (seconds of `join(timeout=2)`). -/
def init (q0 : List Item) (sayDur : Nat) : St :=
  ⟨false, q0, 0, 0, sayDur, 0, 2⟩

/-- Schedule on which the worker exits by observing the stop event while
the sentinel is still queued: the worker polls an empty queue, times out,
and re-checks the loop guard after `shutdown` has set the event and
enqueued the sentinel. -/
def missSched : List Tid :=
  [Tid.worker, Tid.worker, Tid.shut, Tid.shut, Tid.worker, Tid.shut]

/-- Number of shutdown-thread steps in a schedule. -/
def countS (sched : List Tid) : Nat :=
  (sched.filter fun t => t = Tid.shut).length

/-- Steps the shutdown thread still needs before it has returned. -/
def sMeasure (s : St) : Nat :=
  if s.sPc = 0 then s.joinFuel + 3
  else if s.sPc = 1 then s.joinFuel + 2
  else if s.sPc = 2 then s.joinFuel + 1
  else 0

/-- How the worker can end, tied to the stop event: a worker that exited
at the loop guard saw the stop event set, and an exited worker exited at
the guard or by dequeuing the sentinel. -/
def workerInv (s : St) : Prop :=
  (s.wReason = 1 → s.stopEvent = true) ∧
    (s.wPc = 9 → s.wReason = 1 ∨ s.wReason = 2)

end Tts

/-! # Theorems -/

namespace App

/-- C1 — The spec requires `listen` to return the last non-empty partial
("hello", lower-cased) once more than 2 seconds of continuous silence
(empty partials) follow it, even before the overall timeout.  Evaluating
the embedded `listen` at exactly such an input shows the code returns
`none` instead: `last_partial = current_partial` (app.py:223) overwrites
the non-empty partial before the `elif silence_start is None and
last_partial` guard (app.py:228) runs, so the silence timer never starts
and the silence endpoint return (app.py:231-233) is unreachable. -/
theorem listen_silence_never_endpoints : listen 5000 c1frames = none := by
  decide

/-- C2 counterexample — the claim says `listen` returns `none` only when
no non-empty final or partial text was captured at all; on `c2frames` a
non-empty partial "hello" is captured before the timeout, yet `listen`
returns `none` (and in particular not `some "hello"`). -/
theorem listen_timeout_drops_partials_cex :
    capturedNonEmpty 5000 c2frames = true ∧ listen 5000 c2frames = none := by
  decide

/-- C10 counterexample — the claim says `complete` never returns an empty
string.  An HTTP 200 response whose `response` field is `"**"` passes the
non-emptiness check (app.py:321-322, applied before cleaning), but
`_clean_response` then erases it entirely, so the call returns the empty
string rather than `none` or a non-empty string. -/
theorem generate_response_empty_string_cex :
    generate_response (fun _ => AttemptOutcome.http 200 "**") =
      ⟨some "", 1, 0⟩ := by
  decide

end App

namespace Flags

/-- C5 — a concrete interleaving of the orchestration loop and a
manual-trigger worker drives the system into a state where `is_listening`
and `is_processing` are both true: the main loop passes the
back-pressure check (app.py:391) while both flags are false, the manual
path is then accepted (app.py:474), captures a command and sets
`is_processing := true` (app.py:450), and the resumed main loop sets
`is_listening := true` (app.py:396).  The flags are plain unsynchronized
booleans, so nothing excludes this schedule. -/
theorem flags_race_reaches_listening_and_processing :
    (run init raceSched).isListening = true ∧
      (run init raceSched).isProcessing = true := by
  decide

end Flags

namespace Tts

/-- C9 counterexample — the claim says every shutdown execution ends with
the worker dequeuing the sentinel.  On `missSched` the worker polls the
empty queue (`queue.Empty`, app.py:188-189) just as `shutdown` sets the
stop event and enqueues the sentinel (app.py:253-255); the worker then
exits at the loop guard (app.py:181, `wReason = 1`) without ever
dequeuing, the sentinel stays in the queue, and shutdown still returns
(`sPc = 3`). -/
theorem tts_sentinel_not_drained_cex :
    (run (init [] 0) missSched).wReason = 1 ∧
      (run (init [] 0) missSched).q = [Item.sentinel] ∧
      (run (init [] 0) missSched).sPc = 3 := by
  decide

end Tts

namespace App

/-- C3 — every recognized utterance is classified into exactly one intent
by first-match priority: a configured wake phrase yields `WakeWord`,
otherwise an emergency keyword yields `Emergency`, otherwise a question
keyword yields `Question`, otherwise an exit keyword yields `Exit`,
otherwise the utterance is `Unclassified`; and the `_main_loop` dispatch
chain (`routeCommand`) takes the action of exactly that intent, taking no
action (`none`, no response generated) exactly on `Unclassified`. -/
theorem classify_route_priority (ws : List String) (u : String) :
    (classify ws u = Intent.WakeWord ↔ hasAny u ws = true) ∧
    (classify ws u = Intent.Emergency ↔
      hasAny u ws = false ∧ hasAny u emergencyWords = true) ∧
    (classify ws u = Intent.Question ↔
      hasAny u ws = false ∧ hasAny u emergencyWords = false ∧
        hasAny u questionWords = true) ∧
    (classify ws u = Intent.Exit ↔
      hasAny u ws = false ∧ hasAny u emergencyWords = false ∧
        hasAny u questionWords = false ∧ hasAny u exitWords = true) ∧
    (classify ws u = Intent.Unclassified ↔
      hasAny u ws = false ∧ hasAny u emergencyWords = false ∧
        hasAny u questionWords = false ∧ hasAny u exitWords = false) ∧
    (routeCommand ws u = none ↔ classify ws u = Intent.Unclassified) ∧
    (routeCommand ws u = some RouteAction.wakeFlow ↔ classify ws u = Intent.WakeWord) ∧
    (routeCommand ws u = some (RouteAction.runCmd u true) ↔
      classify ws u = Intent.Emergency) ∧
    (routeCommand ws u = some (RouteAction.runCmd u false) ↔
      classify ws u = Intent.Question) ∧
    (routeCommand ws u = some RouteAction.shutdownLoop ↔ classify ws u = Intent.Exit) := by
  unfold classify routeCommand
  cases h1 : hasAny u ws <;> cases h2 : hasAny u emergencyWords <;>
    cases h3 : hasAny u questionWords <;> cases h4 : hasAny u exitWords <;>
      simp

/-- C4 — retry policy of `generate_response` (app.py:316-338): if every
attempt times out, exactly 3 attempts are made with exactly 2 one-second
pauses (none after the last) and the result is `none`; a model-not-found
(HTTP 404) on the first attempt ends the call after exactly 1 attempt
with `none`; any run of other non-success statuses is retried up to the
3-attempt budget (3 attempts, no pauses, `none`). -/
theorem generate_response_retry_policy (oc : Nat → AttemptOutcome) :
    ((∀ i, i < 3 → oc i = AttemptOutcome.timeoutExc) →
      generate_response oc = ⟨none, 3, 2⟩) ∧
    (∀ b, oc 0 = AttemptOutcome.http 404 b → generate_response oc = ⟨none, 1, 0⟩) ∧
    ((∀ i, i < 3 → ∃ st b, oc i = AttemptOutcome.http st b ∧ st ≠ 200 ∧ st ≠ 404) →
      generate_response oc = ⟨none, 3, 0⟩) := by
  refine ⟨?_, ?_, ?_⟩
  · intro h
    have h0 := h 0 (by omega)
    have h1 := h 1 (by omega)
    have h2 := h 2 (by omega)
    simp [generate_response, genAux, h0, h1, h2]
  · intro b h0
    simp [generate_response, genAux, h0]
  · intro h
    obtain ⟨s0, b0, h0, hs0a, hs0b⟩ := h 0 (by omega)
    obtain ⟨s1, b1, h1, hs1a, hs1b⟩ := h 1 (by omega)
    obtain ⟨s2, b2, h2, hs2a, hs2b⟩ := h 2 (by omega)
    simp [generate_response, genAux, h0, h1, h2, hs0a, hs0b, hs1a, hs1b, hs2a, hs2b]

end App

namespace App

theorem mem_of_mem_replaceFuel {c : Char} {pat rep : List Char} :
    ∀ fuel s, c ∈ replaceFuel pat rep fuel s → c ∈ s ∨ c ∈ rep := by
  intro fuel
  induction fuel with
  | zero =>
    intro s h
    cases s with
    | nil => simp [replaceFuel] at h
    | cons d rest => simp only [replaceFuel] at h; exact Or.inl h
  | succ fuel ih =>
    intro s h
    cases s with
    | nil => simp [replaceFuel] at h
    | cons d rest =>
      by_cases hb : (pat ≠ [] && leadsWith pat (d :: rest)) = true
      · simp only [replaceFuel, hb, if_true] at h
        rcases List.mem_append.mp h with hrep | hrec
        · exact Or.inr hrep
        · rcases ih _ hrec with hdrop | hrep
          · exact Or.inl (List.mem_cons_of_mem d (List.drop_subset _ _ hdrop))
          · exact Or.inr hrep
      · simp only [replaceFuel, hb, if_false] at h
        rcases List.mem_cons.mp h with hc | hrec
        · exact Or.inl (hc ▸ List.mem_cons_self d rest)
        · rcases ih _ hrec with hr | hrep
          · exact Or.inl (List.mem_cons_of_mem d hr)
          · exact Or.inr hrep

theorem not_mem_replaceFuel_single (c : Char) (rep : List Char) (hrep : c ∉ rep) :
    ∀ fuel s, s.length ≤ fuel → c ∉ replaceFuel [c] rep fuel s := by
  intro fuel
  induction fuel with
  | zero =>
    intro s hlen
    have hse : s = [] := List.length_eq_zero.mp (Nat.le_zero.mp hlen)
    subst hse
    simp [replaceFuel]
  | succ fuel ih =>
    intro s hlen
    cases s with
    | nil => simp [replaceFuel]
    | cons d rest =>
      by_cases hd : c = d
      · subst hd
        have hb : (([c] : List Char) ≠ [] && leadsWith [c] (c :: rest)) = true := by
          simp [leadsWith]
        simp only [replaceFuel, hb, if_true]
        intro hmem
        rcases List.mem_append.mp hmem with h1 | h1
        · exact hrep h1
        · have h2 := ih (List.drop ([c].length - 1) rest) (by
            rw [List.length_drop]
            simp only [List.length_cons] at hlen
            omega)
          exact h2 h1
      · have hb : (([c] : List Char) ≠ [] && leadsWith [c] (d :: rest)) = false := by
          simp [leadsWith, hd]
        simp only [replaceFuel, hb, Bool.false_eq_true, if_false]
        intro hmem
        rcases List.mem_cons.mp hmem with h1 | h1
        · exact hd h1
        · exact ih rest (by simp only [List.length_cons] at hlen; omega) h1

theorem not_mem_pyReplace (c : Char) (s pat rep : String)
    (hs : c ∉ s.data) (hrep : c ∉ rep.data) : c ∉ (pyReplace s pat rep).data := by
  intro h
  rcases mem_of_mem_replaceFuel _ _ h with h1 | h1
  · exact hs h1
  · exact hrep h1

theorem not_mem_pyReplace_single (c : Char) (s pat rep : String)
    (hpat : pat.data = [c]) (hrep : c ∉ rep.data) : c ∉ (pyReplace s pat rep).data := by
  have h := not_mem_replaceFuel_single c rep.data hrep s.data.length s.data (Nat.le_refl _)
  simpa [pyReplace, hpat] using h

theorem not_mem_pyStrip (c : Char) (s : String) (hs : c ∉ s.data) :
    c ∉ (pyStrip s).data := by
  intro h
  apply hs
  have h1 : c ∈ List.dropWhile isPySpace (List.reverse (List.dropWhile isPySpace s.data)) := by
    simpa [pyStrip, pyStripL] using h
  have h2 := (List.dropWhile_sublist (p := isPySpace)).subset h1
  rw [List.mem_reverse] at h2
  exact (List.dropWhile_sublist (p := isPySpace)).subset h2

theorem clean_response_markup_free (s : String) :
    '*' ∉ (clean_response s).data ∧ '\n' ∉ (clean_response s).data := by
  unfold clean_response
  constructor
  · refine not_mem_pyStrip _ _ ?_
    refine not_mem_pyReplace _ _ _ _ ?_ (by decide)
    refine not_mem_pyReplace _ _ _ _ ?_ (by decide)
    refine not_mem_pyReplace _ _ _ _ ?_ (by decide)
    refine not_mem_pyReplace _ _ _ _ ?_ (by decide)
    refine not_mem_pyReplace _ _ _ _ ?_ (by decide)
    refine not_mem_pyReplace _ _ _ _ ?_ (by decide)
    exact not_mem_pyReplace_single _ _ _ _ (by decide) (by decide)
  · refine not_mem_pyStrip _ _ ?_
    refine not_mem_pyReplace _ _ _ _ ?_ (by decide)
    refine not_mem_pyReplace _ _ _ _ ?_ (by decide)
    exact not_mem_pyReplace_single _ _ _ _ (by decide) (by decide)

end App

namespace App

/-- C6 — response cleaning: for every input the cleaned response contains
no asterisk and no raw newline (the bold/italic markers are removed and
every line break is replaced by ". "); on the spec's concrete input
`"**Step 1**\n\n- Boil water\n- Filter it"` the output is exactly
`"Step 1. - Boil water. - Filter it"`, which contains no doubled
periods. -/
theorem clean_response_spec :
    (∀ s : String, '*' ∉ (clean_response s).data ∧ '\n' ∉ (clean_response s).data) ∧
    clean_response c6input = "Step 1. - Boil water. - Filter it" ∧
    strHas (clean_response c6input) ".." = false := by
  refine ⟨clean_response_markup_free, ?_, ?_⟩
  · decide
  · decide

end App

namespace App

/-- C7 — the wake-word handler first speaks the acknowledgement, then
invokes the listener with the configured emergency timeout; every
`process_command` invocation it makes carries the follow-up text with the
urgent flag `true` (regardless of the text's content), a truthy follow-up
is indeed processed that way, and a falsy follow-up (no utterance) leads
to the retry prompt being spoken with no command processed, hence no
completion requested. -/
theorem wake_word_flow_spec (toEm : Nat) (r : Option String) :
    (handle_wake_word_activation toEm r).take 2 =
        [WakeEv.speakEv ackMsg, WakeEv.listenCall toEm] ∧
    (∀ t e, WakeEv.processCmd t e ∈ handle_wake_word_activation toEm r →
        e = true ∧ r = some t) ∧
    (∀ f, r = some f → f ≠ "" →
        WakeEv.processCmd f true ∈ handle_wake_word_activation toEm r) ∧
    ((match r with | some f => f = "" | none => True) →
        WakeEv.speakEv retryMsg ∈ handle_wake_word_activation toEm r ∧
        ∀ t e, WakeEv.processCmd t e ∉ handle_wake_word_activation toEm r) := by
  cases r with
  | none => simp [handle_wake_word_activation]
  | some f =>
    by_cases hf : f = ""
    · subst hf
      simp [handle_wake_word_activation]
    · simp [handle_wake_word_activation, hf]

end App

namespace App

theorem jLookup_updOne_self (k : String) (v : JVal) :
    ∀ bs, jLookup (updOne k v bs) k =
      some (match jLookup bs k with | some bv => mergeInto bv v | none => v) := by
  intro bs
  induction bs with
  | nil => simp [updOne, jLookup]
  | cons p rest ih =>
    obtain ⟨k2, v2⟩ := p
    by_cases hk : k = k2
    · subst hk
      simp [updOne, jLookup]
    · simp [updOne, jLookup, hk, ih]

theorem jLookup_updOne_ne (k k2 : String) (v : JVal) (hne : k2 ≠ k) :
    ∀ bs, jLookup (updOne k v bs) k2 = jLookup bs k2 := by
  intro bs
  induction bs with
  | nil => simp [updOne, jLookup, hne]
  | cons p rest ih =>
    obtain ⟨k3, v3⟩ := p
    by_cases hk : k = k3
    · subst hk
      simp [updOne, jLookup, fun h => hne h]
    · by_cases hk2 : k2 = k3
      · subst hk2
        simp [updOne, jLookup, hk]
      · simp [updOne, jLookup, hk, hk2, ih]

theorem jLookup_none_of_not_mem (k : String) :
    ∀ l : List (String × JVal), k ∉ l.map Prod.fst → jLookup l k = none := by
  intro l
  induction l with
  | nil => intro _; rfl
  | cons p rest ih =>
    obtain ⟨k2, v2⟩ := p
    intro h
    simp only [List.map_cons, List.mem_cons] at h
    push_neg at h
    simp [jLookup, h.1, ih h.2]

theorem mergeList_lookup (k : String) :
    ∀ (us bs : List (String × JVal)), (us.map Prod.fst).Nodup →
      jLookup (mergeList bs us) k =
        match jLookup us k with
        | some uv => some (match jLookup bs k with
                           | some bv => mergeInto bv uv
                           | none => uv)
        | none => jLookup bs k := by
  intro us
  induction us with
  | nil => intro bs _; simp [mergeList, jLookup]
  | cons p us ih =>
    obtain ⟨k1, v1⟩ := p
    intro bs h
    simp only [List.map_cons, List.nodup_cons] at h
    obtain ⟨hk1, hnd⟩ := h
    rw [show mergeList bs ((k1, v1) :: us) = mergeList (updOne k1 v1 bs) us from by
      simp [mergeList]]
    rw [ih (updOne k1 v1 bs) hnd]
    by_cases hk : k = k1
    · subst hk
      have hus : jLookup us k = none := jLookup_none_of_not_mem k us hk1
      simp [jLookup, hus, jLookup_updOne_self]
    · have hne : k ≠ k1 := hk
      rw [jLookup_updOne_ne k1 k v1 hne bs]
      simp [jLookup, fun h => hne h]

end App

namespace App

/-- C8 — the `validate_config` merge: a key absent from the user document
keeps the default's value; a key present in the user document overrides
the default (with `mergeInto` of the two values when the key exists in
the defaults); two objects merge recursively field-wise rather than the
user object replacing the default wholesale; and whenever either side is
not an object, the user value wins outright.  The user document's keys
are assumed unique, as JSON object keys are. -/
theorem validate_config_merge (ds us : List (String × JVal)) (k : String)
    (h : (us.map Prod.fst).Nodup) :
    (jLookup us k = none → jLookup (mergeList ds us) k = jLookup ds k) ∧
    (∀ uv, jLookup us k = some uv →
      (jLookup ds k = none → jLookup (mergeList ds us) k = some uv) ∧
      (∀ dv, jLookup ds k = some dv →
        jLookup (mergeList ds us) k = some (mergeInto dv uv))) ∧
    (∀ dl ul, mergeInto (JVal.obj dl) (JVal.obj ul) = JVal.obj (mergeList dl ul)) ∧
    (∀ dv uv, isObj dv = false ∨ isObj uv = false → mergeInto dv uv = uv) := by
  refine ⟨?_, ?_, ?_, ?_⟩
  · intro hu
    rw [mergeList_lookup k us ds h, hu]
  · intro uv hu
    constructor
    · intro hd
      rw [mergeList_lookup k us ds h, hu, hd]
    · intro dv hd
      rw [mergeList_lookup k us ds h, hu, hd]
  · intro dl ul
    simp [mergeInto]
  · intro dv uv hno
    cases dv <;> cases uv <;> simp_all [mergeInto, isObj]

/-- Witness for C8 at concrete documents. -/
theorem validate_config_merge_witness :
    jLookup (mergeList dsW usW) "model_name" = jLookup dsW "model_name" :=
  (validate_config_merge dsW usW "model_name" (by decide)).1 (by rfl)

end App

namespace App

theorem listenLoop_cases (timeout : Nat) :
    ∀ (frames : List Frame) (rt lt : String) (ss : Option Nat),
      (listenLoop timeout frames rt lt ss).2 = true ∨
      listenLoop timeout frames rt lt ss =
        ((if lastFinalAux timeout frames rt ≠ "" then
            some (pyLower (lastFinalAux timeout frames rt))
          else none), false) := by
  intro frames
  induction frames with
  | nil =>
    intro rt lt ss
    right
    simp [listenLoop, lastFinalAux]
  | cons f rest ih =>
    intro rt lt ss
    by_cases ht : f.t < timeout
    · cases hres : f.res with
      | readErr =>
        have ha : lastFinalAux timeout (f :: rest) rt = lastFinalAux timeout rest rt := by
          simp [lastFinalAux, ht, hres]
        have he : listenLoop timeout (f :: rest) rt lt ss =
            listenLoop timeout rest rt lt ss := by
          simp [listenLoop, ht, hres]
        rw [he, ha]
        exact ih rt lt ss
      | finalRes txt =>
        have ha : lastFinalAux timeout (f :: rest) rt =
            lastFinalAux timeout rest (pyStrip txt) := by
          simp [lastFinalAux, ht, hres]
        by_cases hc : pyStrip txt ≠ "" ∧ f.t > minSpeechMs
        · left
          simp [listenLoop, ht, hres, hc]
        · have he : listenLoop timeout (f :: rest) rt lt ss =
              listenLoop timeout rest (pyStrip txt) lt ss := by
            simp [listenLoop, ht, hres, hc]
          rw [he, ha]
          exact ih (pyStrip txt) lt ss
      | interim cur =>
        have ha : lastFinalAux timeout (f :: rest) rt = lastFinalAux timeout rest rt := by
          simp [lastFinalAux, ht, hres]
        by_cases hne : cur ≠ lt
        · by_cases hce : cur ≠ ""
          · have he : listenLoop timeout (f :: rest) rt lt ss =
                listenLoop timeout rest rt cur none := by
              simp [listenLoop, ht, hres, hne, hce]
            rw [he, ha]
            exact ih rt cur none
          · push_neg at hce
            subst hce
            cases ss with
            | none =>
              have he : listenLoop timeout (f :: rest) rt lt none =
                  listenLoop timeout rest rt "" none := by
                simp [listenLoop, ht, hres, hne]
              rw [he, ha]
              exact ih rt "" none
            | some s0 =>
              have he : listenLoop timeout (f :: rest) rt lt (some s0) =
                  listenLoop timeout rest rt "" (some s0) := by
                simp [listenLoop, ht, hres, hne]
              rw [he, ha]
              exact ih rt "" (some s0)
        · push_neg at hne
          subst hne
          cases ss with
          | none =>
            have he : listenLoop timeout (f :: rest) rt cur none =
                listenLoop timeout rest rt cur none := by
              simp [listenLoop, ht, hres]
            rw [he, ha]
            exact ih rt cur none
          | some s0 =>
            by_cases hsil : f.t - s0 > silenceMs ∧ cur ≠ ""
            · left
              simp [listenLoop, ht, hres, hsil]
            · have he : listenLoop timeout (f :: rest) rt cur (some s0) =
                  listenLoop timeout rest rt cur (some s0) := by
                simp [listenLoop, ht, hres, hsil]
              rw [he, ha]
              exact ih rt cur (some s0)
    · right
      simp [listenLoop, lastFinalAux, ht]

/-- C2 amended — when `listen` reaches its timeout without an early
return, it returns the stripped text of the last final recognizer result
processed during the call (lower-cased) when that text is non-empty, and
`none` otherwise; partial transcriptions are never returned at timeout,
and a later final overwrites an earlier one even when empty. -/
theorem listen_timeout_returns_last_final (timeout : Nat) (frames : List Frame)
    (h : (listenE timeout frames).2 = false) :
    listen timeout frames =
      (if lastFinalAux timeout frames "" ≠ "" then
        some (pyLower (lastFinalAux timeout frames ""))
      else none) := by
  rcases listenLoop_cases timeout frames "" "" none with h1 | h1
  · exact absurd h1 (by simp [listenE] at h; simp [h])
  · simp only [listen, listenE, h1]

/-- Witness for C2 at a concrete frame sequence with no early return. -/
theorem listen_timeout_returns_last_final_witness :
    listen 5000 [⟨100, FrameRes.finalRes "Hi"⟩] = some "hi" := by
  have h := listen_timeout_returns_last_final 5000 [⟨100, FrameRes.finalRes "Hi"⟩] (by decide)
  rw [h]
  decide

end App

namespace App

theorem genAux_result_characterization (oc : Nat → AttemptOutcome) :
    ∀ (remaining made sleeps : Nat) (s : String),
      (genAux oc remaining made sleeps).result = some s →
      ∃ i, made ≤ i ∧ i < made + remaining ∧
        ∃ body, oc i = AttemptOutcome.http 200 body ∧ pyStrip body ≠ "" ∧
          s = clean_response (pyStrip body) := by
  intro remaining
  induction remaining with
  | zero =>
    intro made sleeps s h
    simp [genAux] at h
  | succ remaining ih =>
    intro made sleeps s h
    simp only [genAux] at h
    cases hoc : oc made with
    | http status body =>
      rw [hoc] at h
      simp only at h
      by_cases h200 : status = 200
      · subst h200
        rw [if_pos rfl] at h
        by_cases hne : pyStrip body ≠ ""
        · rw [if_pos hne] at h
          simp only at h
          refine ⟨made, Nat.le_refl _, by omega, body, hoc, hne, ?_⟩
          exact (Option.some.inj h).symm
        · rw [if_neg hne] at h
          obtain ⟨i, hi1, hi2, rest⟩ := ih (made + 1) sleeps s h
          exact ⟨i, by omega, by omega, rest⟩
      · rw [if_neg h200] at h
        by_cases h404 : status = 404
        · rw [if_pos h404] at h
          simp at h
        · rw [if_neg h404] at h
          obtain ⟨i, hi1, hi2, rest⟩ := ih (made + 1) sleeps s h
          exact ⟨i, by omega, by omega, rest⟩
    | timeoutExc =>
      rw [hoc] at h
      simp only at h
      by_cases hr : remaining > 0
      · rw [if_pos hr] at h
        obtain ⟨i, hi1, hi2, rest⟩ := ih (made + 1) (sleeps + 1) s h
        exact ⟨i, by omega, by omega, rest⟩
      · rw [if_neg hr] at h
        obtain ⟨i, hi1, hi2, rest⟩ := ih (made + 1) sleeps s h
        exact ⟨i, by omega, by omega, rest⟩
    | otherExc =>
      rw [hoc] at h
      simp at h

end App

namespace App

/-- C10 amended — whenever `generate_response` returns a string, some
attempt within the 3-attempt budget received HTTP 200 with a `response`
field that is non-empty after stripping, and the returned string is the
cleaned form of that stripped field; the cleaned form itself may still be
empty (see the counterexample), so only the pre-cleaning text is
guaranteed non-empty.  A 200 response whose field strips to empty is not
returned: it consumes an attempt and the loop continues. -/
theorem generate_response_result_characterization (oc : Nat → AttemptOutcome)
    (s : String) (h : (generate_response oc).result = some s) :
    ∃ i, i < 3 ∧ ∃ body, oc i = AttemptOutcome.http 200 body ∧
      pyStrip body ≠ "" ∧ s = clean_response (pyStrip body) := by
  obtain ⟨i, _, hi2, rest⟩ := genAux_result_characterization oc 3 0 0 s h
  exact ⟨i, by omega, rest⟩

/-- Witness for C10 at a concrete outcome environment. -/
theorem generate_response_result_characterization_witness :
    ∃ i, i < 3 ∧ ∃ body,
      (fun _ => AttemptOutcome.http 200 " ok ") i = AttemptOutcome.http 200 body ∧
      pyStrip body ≠ "" ∧ "ok" = clean_response (pyStrip body) :=
  generate_response_result_characterization
    (fun _ => AttemptOutcome.http 200 " ok ") "ok" (by decide)

end App

namespace Tts

theorem stepW_shut_fields (s : St) :
    (stepW s).sPc = s.sPc ∧ (stepW s).joinFuel = s.joinFuel := by
  rcases s with ⟨ev, q, wpc, wr, sf, spc, jf⟩
  rcases wpc with _ | _ | _ | n
  · rcases ev <;> simp [stepW]
  · rcases q with _ | ⟨i, rest⟩
    · simp [stepW]
    · rcases i <;> simp [stepW]
  · rcases sf with _ | m <;> simp [stepW]
  · simp [stepW]

theorem sMeasure_stepW (s : St) : sMeasure (stepW s) = sMeasure s := by
  obtain ⟨h1, h2⟩ := stepW_shut_fields s
  simp [sMeasure, h1, h2]

theorem stepS_progress (s : St) :
    (sMeasure s = 0 ∧ stepS s = s) ∨ sMeasure (stepS s) < sMeasure s := by
  rcases s with ⟨ev, q, wpc, wr, sf, spc, jf⟩
  rcases spc with _ | _ | _ | n
  · right; simp [stepS, sMeasure]
  · right
    by_cases hw : wpc = 9 <;> simp [stepS, sMeasure, hw]
  · right
    by_cases hw : wpc = 9
    · simp [stepS, sMeasure, hw]
    · by_cases hj : jf = 0 <;> simp [stepS, sMeasure, hw, hj]
      omega
  · left; simp [stepS, sMeasure]

theorem run_shutdown_bound :
    ∀ (sched : List Tid) (s : St),
      sMeasure s ≤ countS sched → sMeasure (run s sched) = 0 := by
  intro sched
  induction sched with
  | nil =>
    intro s h
    simpa [run, countS] using Nat.le_zero.mp (by simpa [countS] using h)
  | cons t rest ih =>
    intro s h
    cases t with
    | worker =>
      have hc : countS (Tid.worker :: rest) = countS rest := by simp [countS]
      have hrun : run s (Tid.worker :: rest) = run (stepW s) rest := rfl
      rw [hrun]
      exact ih (stepW s) (by rw [sMeasure_stepW]; omega)
    | shut =>
      have hc : countS (Tid.shut :: rest) = countS rest + 1 := by simp [countS]
      have hrun : run s (Tid.shut :: rest) = run (stepS s) rest := rfl
      rw [hrun]
      rcases stepS_progress s with ⟨h0, heq⟩ | hlt
      · rw [heq]
        exact ih s (by omega)
      · exact ih (stepS s) (by omega)

theorem stepS_sPc_le (s : St) (h : s.sPc ≤ 3) : (stepS s).sPc ≤ 3 := by
  rcases s with ⟨ev, q, wpc, wr, sf, spc, jf⟩
  rcases spc with _ | _ | _ | n
  · simp [stepS]
  · by_cases hw : wpc = 9 <;> simp [stepS, hw]
  · by_cases hw : wpc = 9
    · simp [stepS, hw]
    · by_cases hj : jf = 0 <;> simp [stepS, hw, hj]
  · simpa [stepS] using h

theorem run_sPc_le :
    ∀ (sched : List Tid) (s : St), s.sPc ≤ 3 → (run s sched).sPc ≤ 3 := by
  intro sched
  induction sched with
  | nil => intro s h; simpa [run] using h
  | cons t rest ih =>
    intro s h
    cases t with
    | worker => exact ih (stepW s) (by rw [(stepW_shut_fields s).1]; exact h)
    | shut => exact ih (stepS s) (stepS_sPc_le s h)

theorem sMeasure_zero_sPc (s : St) (h0 : sMeasure s = 0) (h3 : s.sPc ≤ 3) :
    s.sPc = 3 := by
  unfold sMeasure at h0
  split at h0 <;> try omega
  split at h0 <;> try omega
  split at h0 <;> omega

theorem stepW_workerInv (s : St) (h : workerInv s) : workerInv (stepW s) := by
  obtain ⟨h1, h2⟩ := h
  rcases s with ⟨ev, q, wpc, wr, sf, spc, jf⟩
  simp only [workerInv] at *
  rcases wpc with _ | _ | _ | n
  · rcases ev <;> simp_all [stepW]
  · rcases q with _ | ⟨i, rest⟩
    · simp_all [stepW]
    · rcases i <;> simp_all [stepW]
  · rcases sf with _ | m <;> simp_all [stepW]
  · simp_all [stepW]

theorem stepS_workerInv (s : St) (h : workerInv s) : workerInv (stepS s) := by
  obtain ⟨h1, h2⟩ := h
  rcases s with ⟨ev, q, wpc, wr, sf, spc, jf⟩
  simp only [workerInv] at *
  rcases spc with _ | _ | _ | n
  · simp_all [stepS]
  · by_cases hw : wpc = 9 <;> simp_all [stepS]
  · by_cases hw : wpc = 9
    · simp_all [stepS]
    · by_cases hj : jf = 0 <;> simp_all [stepS]
  · simp_all [stepS]

theorem run_workerInv :
    ∀ (sched : List Tid) (s : St), workerInv s → workerInv (run s sched) := by
  intro sched
  induction sched with
  | nil => intro s h; simpa [run] using h
  | cons t rest ih =>
    intro s h
    cases t with
    | worker => exact ih (stepW s) (stepW_workerInv s h)
    | shut => exact ih (stepS s) (stepS_workerInv s h)

end Tts

namespace Tts

/-- C9 amended — in every shutdown execution (any interleaving, any
pending queue, any synthesis duration): a worker that exited at its loop
guard did so with the stop event set, an exited worker ended either at
the guard or by consuming the sentinel, and the shutdown procedure
completes within its bounded join budget — five shutdown-thread steps
(set event, put sentinel, and a join bounded by `joinFuel = 2`) always
suffice, even while a synthesis call is still running. -/
theorem tts_shutdown_amended (q0 : List Item) (sayDur : Nat) (sched : List Tid) :
    ((run (init q0 sayDur) sched).wReason = 1 →
        (run (init q0 sayDur) sched).stopEvent = true) ∧
    ((run (init q0 sayDur) sched).wPc = 9 →
        (run (init q0 sayDur) sched).wReason = 1 ∨
          (run (init q0 sayDur) sched).wReason = 2) ∧
    (5 ≤ countS sched → (run (init q0 sayDur) sched).sPc = 3) := by
  have hinv : workerInv (run (init q0 sayDur) sched) := by
    apply run_workerInv
    constructor
    · intro h; simp [init] at h
    · intro h; simp [init] at h
  refine ⟨hinv.1, hinv.2, ?_⟩
  intro hc
  have hm0 : sMeasure (run (init q0 sayDur) sched) = 0 := by
    apply run_shutdown_bound
    simpa [init, sMeasure] using hc
  have hle : (run (init q0 sayDur) sched).sPc ≤ 3 := by
    apply run_sPc_le
    simp [init]
  exact sMeasure_zero_sPc _ hm0 hle

end Tts
